/-
  Verification of the LiveCut client-side streaming frame/audio
  synchronization pipeline (src/frontend/src/Video.tsx) and the Edit-view
  scene navigation (src/frontend/src/Edit.tsx).

  The browser environment is single-threaded and event-driven; image
  decoding callbacks (`img.onload` / `img.onerror`) are modelled as
  completing synchronously at the point the decode is requested, which is
  the ordering the code relies on (at most one decode in flight,
  `isDrawingRef` guard).  Opaque JPEG payloads are modelled as records
  carrying their decoded dimensions and a flag saying whether decoding
  succeeds (`img.onload` vs `img.onerror`).
-/
import Mathlib

namespace LiveCut

/-- An encoded frame payload as the compositor sees it: opaque content plus
the outcome of handing it to an `Image` element — either it decodes to an
image with some dimensions (`decodesOk = true`) or `img.onerror` fires. -/
structure Payload where
  data : Nat
  width : Nat
  height : Nat
  decodesOk : Bool
deriving DecidableEq, Repr

/-- `frameQueueRef.current : Map<number, string>` — the out-of-order frame
buffer, keyed by sequence index. -/
def FrameQueue : Type := Nat → Option Payload

/-- A fresh, empty frame buffer (`new Map()` / `frameQueueRef.current.clear()`). -/
def FrameQueue.empty : FrameQueue := fun _ => none

/-- `frameQueueRef.current.set(data.frame_index, imageUrl)` in `ws.onmessage`:
store a frame keyed by its sequence index (Video.tsx:214). -/
def FrameQueue.set (q : FrameQueue) (i : Nat) (p : Payload) : FrameQueue :=
  fun j => if j = i then some p else q j

/-- `frameQueueRef.current.get(nextFrame)` (Video.tsx:145). -/
def FrameQueue.get (q : FrameQueue) (i : Nat) : Option Payload := q i

/-- `frameQueueRef.current.delete(nextFrame)` (Video.tsx:175, 186). -/
def FrameQueue.del (q : FrameQueue) (i : Nat) : FrameQueue :=
  fun j => if j = i then none else q j

/-- The drain step `processFrameQueue` performs on the buffer alone: look up
the frame at `nextExpectedIndex`; if present, return it and remove it from
the buffer; if absent, return `none` (the plain `return` at Video.tsx:147 —
a normal waiting state, not an error) and leave the buffer untouched. -/
def drainReady (q : FrameQueue) (next : Nat) : Option Payload × FrameQueue :=
  match q.get next with
  | some p => (some p, q.del next)
  | none => (none, q)

/-- The scene-boundary table sent to the websocket and hard-coded in the
playback scene branch (Video.tsx:123, 345-348). -/
def boundaryTable : List Nat := [96, 192, 288, 384]

/-- The chain of threshold comparisons computing the scene index from a
frame index during full playback (Video.tsx:344-348):
`let sceneIndex = 0; if (f >= 384) 4; else if (f >= 288) 3; ...`. -/
def sceneForFrame (frameIndex : Nat) : Nat :=
  if 384 ≤ frameIndex then 4
  else if 288 ≤ frameIndex then 3
  else if 192 ≤ frameIndex then 2
  else if 96 ≤ frameIndex then 1
  else 0

/-!  ## The Compositor state machine (generation-time draw loop)

`processFrameQueue` (Video.tsx:135-193) pops the frame at
`nextFrameToDrawRef` from the queue, decodes it, draws it, archives it in
`framesRef`, sizes the canvas on frame 0, advances the cursor and
re-invokes itself (`requestAnimationFrame(processFrameQueue)`), stopping
when the next frame is not yet buffered.  The `isDrawingRef` guard only
prevents re-entrance while a decode is in flight; with decoding modelled as
synchronous the guard is always `false` at entry and is omitted.  The
recursive re-invocation is bounded by a `fuel` argument; every theorem
supplies enough fuel for the drain to run to quiescence. -/

/-- The mutable state touched by the generation-time pipeline: the frame
buffer (`frameQueueRef`), the cursor (`nextFrameToDrawRef`), the archive
(`framesRef`), the canvas dimensions (`canvasSizeRef` / `canvas.width`,
`canvas.height`), and a chronological log of the sequence indices drawn to
the canvas (`ctx.drawImage` calls, in order). -/
structure CompState where
  frameQueue : FrameQueue
  nextFrameToDraw : Nat
  drawnLog : List Nat
  frames : Nat → Option Payload
  canvasSize : Option (Nat × Nat)

/-- State at `ws.onopen`: cleared queue, cursor 0, empty archive, unsized
canvas (Video.tsx:102, 127-129). -/
def CompState.init : CompState :=
  { frameQueue := FrameQueue.empty
    nextFrameToDraw := 0
    drawnLog := []
    frames := fun _ => none
    canvasSize := none }

/-- `processFrameQueue` (Video.tsx:135-193).  If the frame at the cursor is
buffered, decode it: on `img.onload` size the canvas when the cursor is 0,
draw, archive, delete the queue entry, advance, recurse; on `img.onerror`
delete the queue entry, advance, recurse without drawing or archiving.  If
the frame is not yet buffered, return. -/
def processFrameQueue : Nat → CompState → CompState
  | 0, s => s
  | fuel + 1, s =>
    match s.frameQueue.get s.nextFrameToDraw with
    | none => s
    | some p =>
      if p.decodesOk then
        processFrameQueue fuel
          { frameQueue := s.frameQueue.del s.nextFrameToDraw
            nextFrameToDraw := s.nextFrameToDraw + 1
            drawnLog := s.drawnLog ++ [s.nextFrameToDraw]
            frames := fun j => if j = s.nextFrameToDraw then some p else s.frames j
            canvasSize :=
              if s.nextFrameToDraw = 0 then some (p.width, p.height) else s.canvasSize }
      else
        processFrameQueue fuel
          { frameQueue := s.frameQueue.del s.nextFrameToDraw
            nextFrameToDraw := s.nextFrameToDraw + 1
            drawnLog := s.drawnLog
            frames := s.frames
            canvasSize := s.canvasSize }

/-- Arrival of one `{type: "frame"}` websocket message (Video.tsx:198-222):
store the payload keyed by `frame_index`, then run `processFrameQueue`. -/
def submitFrame (fuel : Nat) (s : CompState) (i : Nat) (p : Payload) : CompState :=
  processFrameQueue fuel { s with frameQueue := s.frameQueue.set i p }

/-- A whole arrival sequence fed through `ws.onmessage`, one message at a
time, in the given (arbitrary) arrival order. -/
def runArrivals (fuel : Nat) (s : CompState) (arrivals : List (Nat × Payload)) : CompState :=
  arrivals.foldl (fun t ip => submitFrame fuel t ip.1 ip.2) s

/-- The reachable-state invariant of the compositor, relative to the sender
payload assignment `pl` and the set `A` of sequence indices that have
arrived so far: the queue holds exactly the arrived-but-not-yet-consumed
frames; every index below the cursor has arrived; the drain is quiescent
(the frame at the cursor has not arrived); the draw log is exactly the decodable
prefix in increasing order; the archive holds exactly the consumed frames
that decoded; the canvas is sized from frame 0 iff frame 0 was consumed and
decoded. -/
def Inv (pl : Nat → Payload) (A : Finset Nat) (s : CompState) : Prop :=
  (∀ j, s.frameQueue j = if j ∈ A ∧ s.nextFrameToDraw ≤ j then some (pl j) else none)
  ∧ (∀ j, j < s.nextFrameToDraw → j ∈ A)
  ∧ s.nextFrameToDraw ∉ A
  ∧ s.drawnLog = (List.range s.nextFrameToDraw).filter (fun j => (pl j).decodesOk)
  ∧ (∀ j, s.frames j =
      if j < s.nextFrameToDraw ∧ (pl j).decodesOk then some (pl j) else none)
  ∧ s.canvasSize =
      (if 0 < s.nextFrameToDraw ∧ (pl 0).decodesOk
       then some ((pl 0).width, (pl 0).height) else none)


/-!  ## Audio Track Switcher and full playback (`playVideo` / `playFrame`) -/

/-- Events observable on the audio elements: `play()` and `pause()` calls,
by handle index. -/
inductive AudioEvent where
  | play (i : Nat)
  | pause (i : Nat)
deriving DecidableEq, Repr

/-- The audio-related mutable state: the preloaded handles
(`audioElementsRef.current`, of length `numHandles`), the active-scene
cursor (`currentSceneRef`), the per-handle playing flag and `currentTime`,
and a chronological log of play/pause calls. -/
structure AudioState where
  numHandles : Nat
  currentSceneRef : Nat
  playing : Nat → Bool
  currentTime : Nat → Nat
  events : List AudioEvent

/-- `audioElementsRef.current.forEach(a => { a.pause(); a.currentTime = 0 })`
(Video.tsx:295-298, 355-358, 388-391). -/
def pauseRewindAll (s : AudioState) : AudioState :=
  { s with playing := fun _ => false
           currentTime := fun _ => 0
           events := s.events ++ (List.range s.numHandles).map AudioEvent.pause }

/-- `audioElementsRef.current.forEach(a => a.pause())` — the end-of-playback
branch pauses without rewinding (Video.tsx:326-328). -/
def pauseAll (s : AudioState) : AudioState :=
  { s with playing := fun _ => false
           events := s.events ++ (List.range s.numHandles).map AudioEvent.pause }

/-- The scene-crossing audio switch in `playFrame` (Video.tsx:351-368): when
the computed scene differs from `currentSceneRef`, pause and rewind every
handle, play the handle for the new scene when that handle exists, and
update the cursor; when the scene is unchanged, do nothing. -/
def activate (sceneIndex : Nat) (s : AudioState) : AudioState :=
  if sceneIndex ≠ s.currentSceneRef then
    let s1 := pauseRewindAll s
    let s2 :=
      if sceneIndex < s1.numHandles then
        { s1 with playing := fun j => if j = sceneIndex then true else s1.playing j
                  events := s1.events ++ [AudioEvent.play sceneIndex] }
      else s1
    { s2 with currentSceneRef := sceneIndex }
  else s

/-- The full-playback state (`playVideo` / `playFrame`, Video.tsx:274-378):
the loop counter `frameIndex`, the React `isPlaying` flag, whether
`playbackIntervalRef` holds a live timer, the displayed position
`currentPlaybackFrame`, the status line, the canvas content (the sequence
index of the frame on the surface), a chronological draw log, and the
audio state. -/
structure PlayState where
  frameIndex : Nat
  isPlaying : Bool
  intervalActive : Bool
  currentPlaybackFrame : Nat
  wsStatus : String
  canvasContent : Option Nat
  drawnLog : List Nat
  audio : AudioState

/-- One invocation of `playFrame` (Video.tsx:316-373) against the archive
`frames` (`framesRef.current`, a sparse array whose missing entries are
`none`).  At or past the end of the archive: stop the timer, drop the
`isPlaying` flag, pause all audio (Video.tsx:317-330) — the canvas and the
displayed position are left as they are.  On a missing entry: advance the
counter and do nothing else (Video.tsx:332-336).  On a present entry: draw
it, record the displayed position, and run the scene-crossing audio switch
(Video.tsx:338-372); loading an already-archived frame is modelled as
succeeding synchronously. -/
def playFrameStep (frames : List (Option Payload)) (s : PlayState) : PlayState :=
  if frames.length ≤ s.frameIndex then
    { s with isPlaying := false
             wsStatus := "Playback complete"
             intervalActive := false
             audio := pauseAll s.audio }
  else
    match frames.getD s.frameIndex none with
    | none => { s with frameIndex := s.frameIndex + 1 }
    | some _ =>
      { s with canvasContent := some s.frameIndex
               drawnLog := s.drawnLog ++ [s.frameIndex]
               currentPlaybackFrame := s.frameIndex
               audio := activate (sceneForFrame s.frameIndex) s.audio
               frameIndex := s.frameIndex + 1 }

/-- One tick of the fixed-rate timer (`setInterval(playFrame, 1000/24)`,
Video.tsx:376): `playFrame` runs only while `playbackIntervalRef` holds the
interval. -/
def tick (frames : List (Option Payload)) (s : PlayState) : PlayState :=
  if s.intervalActive then playFrameStep frames s else s

/-- The reset `playVideo` performs before the loop starts (Video.tsx:282-307, 376):
rewind the displayed position and the scene cursor, pause and rewind every
audio handle, start handle 0 when it exists, install the timer.  `canvas0`
is whatever the canvas showed before. -/
def playVideoInit (audio : AudioState) (canvas0 : Option Nat) : PlayState :=
  let a1 := pauseRewindAll { audio with currentSceneRef := 0 }
  let a2 :=
    if 0 < a1.numHandles then
      { a1 with playing := fun j => if j = 0 then true else a1.playing j
                events := a1.events ++ [AudioEvent.play 0] }
    else a1
  { frameIndex := 0
    isPlaying := true
    intervalActive := true
    currentPlaybackFrame := 0
    wsStatus := ""
    canvasContent := canvas0
    drawnLog := []
    audio := a2 }

/-- `stopVideo` (Video.tsx:381-393): clear the timer, drop the `isPlaying`
flag, pause and rewind every audio handle; the canvas is not touched. -/
def stopVideo (s : PlayState) : PlayState :=
  { s with intervalActive := false
           isPlaying := false
           audio := pauseRewindAll s.audio
           wsStatus := "Playback stopped. Click Play to watch again." }

/-- A full-playback run to completion: the `playVideo` reset followed by
`frames.length + 1` timer ticks — enough for the loop counter to walk the
whole archive and take the terminating branch once. -/
def finalPlaybackState (frames : List (Option Payload)) (audio : AudioState)
    (canvas0 : Option Nat) : PlayState :=
  (tick frames)^[frames.length + 1] (playVideoInit audio canvas0)

/-!  ## Concrete sample data used by the witnesses -/

/-- A sender payload assignment where every frame decodes. -/
def okPayload : Nat → Payload :=
  fun i => { data := i, width := 4, height := 3, decodesOk := true }

/-- A sender payload assignment whose frame 10 is malformed. -/
def gapPayload : Nat → Payload :=
  fun i => { data := i, width := 4, height := 3, decodesOk := i != 10 }

/-- A compositor state whose cursor has passed the first frame. -/
def sampleMidComp : CompState :=
  { frameQueue := FrameQueue.empty
    nextFrameToDraw := 1
    drawnLog := [0]
    frames := fun j => if j = 0 then some (okPayload 0) else none
    canvasSize := some (4, 3) }

/-- A two-scene audio rack, idle, with scene 0 active and no events yet. -/
def sampleAudio : AudioState :=
  { numHandles := 2
    currentSceneRef := 0
    playing := fun _ => false
    currentTime := fun _ => 0
    events := [] }

/-- A fully archived two-frame session. -/
def sampleArchive2 : List (Option Payload) :=
  [some (okPayload 0), some (okPayload 1)]

/-- A three-slot archive with a gap at index 1 (frame 1 was skipped on
decode failure, so `framesRef.current[1]` was never assigned). -/
def sampleArchiveGap : List (Option Payload) :=
  [some (okPayload 0), none, some (okPayload 2)]

/-- A playback state mid-run at frame 1, timer live. -/
def sampleMidPlay : PlayState :=
  { frameIndex := 1
    isPlaying := true
    intervalActive := true
    currentPlaybackFrame := 0
    wsStatus := ""
    canvasContent := some 0
    drawnLog := [0]
    audio := sampleAudio }
end LiveCut

namespace LiveCut.Edit

/-- `goLeft` in Edit.tsx:194-196 (also the ArrowLeft handler, Edit.tsx:75):
`setCenterIndex((c) => (c - 1 + numChunks) % numChunks)`.  JavaScript `%`
is truncated remainder, which agrees with `Int.emod` on the non-negative
dividends arising here; we keep `Int.tmod`, the exact JS semantics. -/
def goLeft (numChunks : Int) (c : Int) : Int :=
  Int.tmod (c - 1 + numChunks) numChunks

/-- `goRight` in Edit.tsx:198-200 (also the ArrowRight handler, Edit.tsx:78):
`setCenterIndex((c) => (c + 1) % numChunks)`. -/
def goRight (numChunks : Int) (c : Int) : Int :=
  Int.tmod (c + 1) numChunks

/-- The ArrowLeft key handler body (Edit.tsx:75). -/
def arrowLeftHandler (numChunks : Int) (c : Int) : Int :=
  Int.tmod (c - 1 + numChunks) numChunks

/-- The ArrowRight key handler body (Edit.tsx:78). -/
def arrowRightHandler (numChunks : Int) (c : Int) : Int :=
  Int.tmod (c + 1) numChunks

end LiveCut.Edit

namespace LiveCut

lemma card_filter_le_succ (A : Finset ℕ) (n : ℕ) (hn : n ∈ A) :
    (A.filter (fun j => n ≤ j)).card = (A.filter (fun j => n + 1 ≤ j)).card + 1 := by
  have hins : A.filter (fun j => n ≤ j) = insert n (A.filter (fun j => n + 1 ≤ j)) := by
    ext j
    simp only [Finset.mem_filter, Finset.mem_insert]
    constructor
    · rintro ⟨hj, hle⟩
      rcases eq_or_ne j n with rfl | hne
      · exact Or.inl rfl
      · exact Or.inr ⟨hj, by omega⟩
    · rintro (rfl | ⟨hj, hle⟩)
      · exact ⟨hn, le_refl _⟩
      · exact ⟨hj, by omega⟩
  rw [hins, Finset.card_insert_of_not_mem]
  simp only [Finset.mem_filter, not_and]
  intro _
  omega

lemma processFrameQueue_inv (pl : Nat → Payload) (A : Finset Nat) :
    ∀ (fuel : Nat) (s : CompState),
      (∀ j, s.frameQueue j = if j ∈ A ∧ s.nextFrameToDraw ≤ j then some (pl j) else none) →
      (∀ j, j < s.nextFrameToDraw → j ∈ A) →
      s.drawnLog = (List.range s.nextFrameToDraw).filter (fun j => (pl j).decodesOk) →
      (∀ j, s.frames j =
        if j < s.nextFrameToDraw ∧ (pl j).decodesOk then some (pl j) else none) →
      s.canvasSize = (if 0 < s.nextFrameToDraw ∧ (pl 0).decodesOk
        then some ((pl 0).width, (pl 0).height) else none) →
      (A.filter (fun j => s.nextFrameToDraw ≤ j)).card < fuel →
      Inv pl A (processFrameQueue fuel s) := by
  intro fuel
  induction fuel with
  | zero => intro s _ _ _ _ _ hfuel; omega
  | succ fuel ih =>
    intro s hq hbelow hlog harc hcanv hfuel
    by_cases hmem : s.nextFrameToDraw ∈ A
    · have hsome : s.frameQueue.get s.nextFrameToDraw = some (pl s.nextFrameToDraw) := by
        have h := hq s.nextFrameToDraw
        simp only [FrameQueue.get, h, hmem, le_refl, and_self, if_true]
      by_cases hok : (pl s.nextFrameToDraw).decodesOk = true
      · simp only [processFrameQueue, hsome, hok, if_true]
        apply ih
        · intro j
          dsimp only
          simp only [FrameQueue.del]
          by_cases hj : j = s.nextFrameToDraw
          · rw [if_pos hj]
            have hcond : ¬ (j ∈ A ∧ s.nextFrameToDraw + 1 ≤ j) := by
              rintro ⟨-, hle⟩
              omega
            rw [if_neg hcond]
          · rw [if_neg hj, hq j]
            by_cases hA : j ∈ A
            · simp only [hA, true_and]
              split_ifs <;> first | rfl | omega
            · simp [hA]
        · intro j hjlt
          dsimp only at hjlt
          rcases Nat.lt_succ_iff_lt_or_eq.mp hjlt with h | h
          · exact hbelow j h
          · exact h ▸ hmem
        · dsimp only
          rw [List.range_succ, List.filter_append, ← hlog]
          simp [hok]
        · intro j
          dsimp only
          by_cases hj : j = s.nextFrameToDraw
          · rw [if_pos hj, hj]
            simp [hok]
          · rw [if_neg hj, harc j]
            by_cases hokj : (pl j).decodesOk = true
            · simp only [hokj, and_true]
              split_ifs <;> first | rfl | omega
            · simp [hokj]
        · dsimp only
          rcases Nat.eq_zero_or_pos s.nextFrameToDraw with h0 | hpos
          · rw [h0]
            have hok0 : (pl 0).decodesOk = true := by rw [← h0]; exact hok
            simp [hok0]
          · have hne : s.nextFrameToDraw ≠ 0 := by omega
            rw [if_neg hne, hcanv]
            by_cases hok0 : (pl 0).decodesOk = true
            · simp [hok0, hpos]
            · simp [hok0]
        · dsimp only
          have hcard := card_filter_le_succ A s.nextFrameToDraw hmem
          omega
      · simp only [processFrameQueue, hsome, hok, if_false]
        apply ih
        · intro j
          dsimp only
          simp only [FrameQueue.del]
          by_cases hj : j = s.nextFrameToDraw
          · rw [if_pos hj]
            have hcond : ¬ (j ∈ A ∧ s.nextFrameToDraw + 1 ≤ j) := by
              rintro ⟨-, hle⟩
              omega
            rw [if_neg hcond]
          · rw [if_neg hj, hq j]
            by_cases hA : j ∈ A
            · simp only [hA, true_and]
              split_ifs <;> first | rfl | omega
            · simp [hA]
        · intro j hjlt
          dsimp only at hjlt
          rcases Nat.lt_succ_iff_lt_or_eq.mp hjlt with h | h
          · exact hbelow j h
          · exact h ▸ hmem
        · dsimp only
          rw [List.range_succ, List.filter_append, ← hlog]
          simp [hok]
        · intro j
          dsimp only
          rw [harc j]
          by_cases hj : j = s.nextFrameToDraw
          · have hokj : ¬ ((pl j).decodesOk = true) := by rw [hj]; exact hok
            simp [hokj]
          · by_cases hokj : (pl j).decodesOk = true
            · simp only [hokj, and_true]
              split_ifs <;> first | rfl | omega
            · simp [hokj]
        · dsimp only
          rw [hcanv]
          rcases Nat.eq_zero_or_pos s.nextFrameToDraw with h0 | hpos
          · have hok0 : ¬ ((pl 0).decodesOk = true) := by rw [← h0]; exact hok
            simp [hok0]
          · by_cases hok0 : (pl 0).decodesOk = true
            · simp [hok0, hpos]
            · simp [hok0]
        · dsimp only
          have hcard := card_filter_le_succ A s.nextFrameToDraw hmem
          omega
    · have hnone : s.frameQueue.get s.nextFrameToDraw = none := by
        have h := hq s.nextFrameToDraw
        simp only [FrameQueue.get, h, hmem, false_and, if_false]
      simp only [processFrameQueue, hnone]
      exact ⟨hq, hbelow, hmem, hlog, harc, hcanv⟩

lemma Inv_init (pl : Nat → Payload) : Inv pl ∅ CompState.init := by
  refine ⟨?_, ?_, ?_, ?_, ?_, ?_⟩
  · intro j
    simp [CompState.init, FrameQueue.empty]
  · intro j h
    simp only [CompState.init] at h
    omega
  · simp
  · simp [CompState.init]
  · intro j
    simp [CompState.init]
  · simp [CompState.init]

lemma submitFrame_inv (pl : Nat → Payload) (A : Finset Nat) (fuel : Nat) (s : CompState)
    (i : Nat) (hi : i ∉ A) (hInv : Inv pl A s) (hfuel : A.card + 1 < fuel) :
    Inv pl (insert i A) (submitFrame fuel s i (pl i)) := by
  obtain ⟨hq, hbelow, hnotmem, hlog, harc, hcanv⟩ := hInv
  have hile : s.nextFrameToDraw ≤ i := by
    by_contra h
    exact hi (hbelow i (by omega))
  rw [submitFrame]
  apply processFrameQueue_inv
  · intro j
    dsimp only
    simp only [FrameQueue.set]
    by_cases hj : j = i
    · rw [if_pos hj, hj]
      simp [hile]
    · rw [if_neg hj, hq j]
      simp [Finset.mem_insert, hj]
  · intro j hjlt
    dsimp only at hjlt
    exact Finset.mem_insert_of_mem (hbelow j hjlt)
  · exact hlog
  · exact harc
  · exact hcanv
  · dsimp only
    have h1 : ((insert i A).filter (fun j => s.nextFrameToDraw ≤ j)).card ≤ (insert i A).card :=
      Finset.card_filter_le _ _
    have h2 : (insert i A).card ≤ A.card + 1 := Finset.card_insert_le i A
    omega

lemma runArrivals_inv (pl : Nat → Payload) (fuel : Nat) :
    ∀ (l : List Nat) (A : Finset Nat) (s : CompState),
      Inv pl A s → (∀ i ∈ l, i ∉ A) → l.Nodup →
      A.card + l.length + 1 ≤ fuel →
      Inv pl (A ∪ l.toFinset) (runArrivals fuel s (l.map (fun i => (i, pl i)))) := by
  intro l
  induction l with
  | nil =>
    intro A s hInv _ _ _
    simpa [runArrivals] using hInv
  | cons i l ihl =>
    intro A s hInv hfresh hnodup hfuel
    have hi : i ∉ A := hfresh i (List.mem_cons_self i l)
    have hlen : (i :: l).length = l.length + 1 := List.length_cons i l
    have hstep : Inv pl (insert i A) (submitFrame fuel s i (pl i)) :=
      submitFrame_inv pl A fuel s i hi hInv (by omega)
    have hrest : Inv pl (insert i A ∪ l.toFinset)
        (runArrivals fuel (submitFrame fuel s i (pl i)) (l.map (fun i => (i, pl i)))) := by
      apply ihl
      · exact hstep
      · intro j hj
        simp only [Finset.mem_insert]
        rintro (rfl | hjA)
        · exact (List.nodup_cons.mp hnodup).1 hj
        · exact hfresh j (List.mem_cons_of_mem i hj) hjA
      · exact (List.nodup_cons.mp hnodup).2
      · have := Finset.card_insert_le i A
        omega
    have hunfold : runArrivals fuel s ((i :: l).map (fun i => (i, pl i)))
        = runArrivals fuel (submitFrame fuel s i (pl i)) (l.map (fun i => (i, pl i))) := rfl
    have hset : insert i A ∪ l.toFinset = A ∪ (i :: l).toFinset := by
      ext j
      simp only [Finset.mem_union, Finset.mem_insert, List.toFinset_cons, List.mem_toFinset]
      tauto
    rw [hunfold, ← hset]
    exact hrest

lemma Inv_range_next (pl : Nat → Payload) (N : Nat) (s : CompState)
    (h : Inv pl (Finset.range N) s) : s.nextFrameToDraw = N := by
  obtain ⟨-, hbelow, hnotmem, -, -, -⟩ := h
  by_contra hne
  rcases Nat.lt_or_ge s.nextFrameToDraw N with hlt | hge
  · exact hnotmem (Finset.mem_range.mpr hlt)
  · have hNlt : N < s.nextFrameToDraw := by omega
    have := hbelow N hNlt
    simp [Finset.mem_range] at this

lemma runArrivals_perm (pl : Nat → Payload) (N : Nat) (perm : List Nat)
    (hperm : perm.Perm (List.range N)) :
    Inv pl (Finset.range N)
      (runArrivals (N + 1) CompState.init (perm.map (fun i => (i, pl i))))
    ∧ (runArrivals (N + 1) CompState.init (perm.map (fun i => (i, pl i)))).nextFrameToDraw
        = N := by
  have hnodup : perm.Nodup := hperm.nodup_iff.mpr (List.nodup_range N)
  have hlen : perm.length = N := by
    have := hperm.length_eq
    simpa [List.length_range] using this
  have hfin : perm.toFinset = Finset.range N := by
    rw [List.toFinset_eq_of_perm _ _ hperm]
    ext j
    simp [List.mem_range, Finset.mem_range]
  have h := runArrivals_inv pl (N + 1) perm ∅ CompState.init (Inv_init pl)
    (by intro i _; exact Finset.not_mem_empty i) hnodup
    (by simp [hlen])
  rw [Finset.empty_union, hfin] at h
  exact ⟨h, Inv_range_next pl N _ h⟩

lemma processFrameQueue_canvas_stable :
    ∀ (fuel : Nat) (s : CompState), 0 < s.nextFrameToDraw →
      (processFrameQueue fuel s).canvasSize = s.canvasSize := by
  intro fuel
  induction fuel with
  | zero => intro s _; rfl
  | succ fuel ih =>
    intro s h
    rcases hget : s.frameQueue.get s.nextFrameToDraw with _ | p
    · simp only [processFrameQueue, hget]
    · by_cases hok : p.decodesOk = true
      · simp only [processFrameQueue, hget, hok, if_true]
        rw [ih _ (by dsimp only; omega)]
        dsimp only
        rw [if_neg (by omega)]
      · simp only [processFrameQueue, hget, hok, if_false]
        exact ih _ (by dsimp only; omega)

/-- C1: for every set of frames with sequence indices `0..N-1` and every
permutation of their arrival order at the session, the compositor draws the
frames onto the canvas in strictly increasing `sequence_index` order: the
chronological draw log of the whole run is exactly `[0, 1, ..., N-1]`,
which is sorted by `<`. -/
theorem compositor_draws_in_increasing_order (N : Nat) (pl : Nat → Payload)
    (perm : List Nat) (hperm : perm.Perm (List.range N))
    (hok : ∀ i, (pl i).decodesOk = true) :
    (runArrivals (N + 1) CompState.init (perm.map (fun i => (i, pl i)))).drawnLog
      = List.range N
    ∧ List.Sorted (· < ·)
        (runArrivals (N + 1) CompState.init (perm.map (fun i => (i, pl i)))).drawnLog := by
  obtain ⟨hInv, hnext⟩ := runArrivals_perm pl N perm hperm
  obtain ⟨-, -, -, hlog, -, -⟩ := hInv
  have hfilter : (List.range N).filter (fun j => (pl j).decodesOk) = List.range N :=
    List.filter_eq_self.mpr (fun a _ => hok a)
  rw [hlog, hnext, hfilter]
  exact ⟨rfl, List.sorted_lt_range N⟩

theorem compositor_draws_in_increasing_order_witness :
    (runArrivals 4 CompState.init ([2, 0, 1].map (fun i => (i, okPayload i)))).drawnLog
      = List.range 3 :=
  (compositor_draws_in_increasing_order 3 okPayload [2, 0, 1] (by decide)
    (fun _ => rfl)).1

/-- C3: when the payload at index `k` fails to decode, the frame is skipped
and in-order processing continues: after all frames of `0..N-1` arrive (in
any order), the cursor has advanced through the whole range, index `k` was
never drawn, and index `k + 1` was drawn. -/
theorem decode_failure_skips_frame_and_continues (N k : Nat) (pl : Nat → Payload)
    (perm : List Nat) (hperm : perm.Perm (List.range N))
    (hbad : (pl k).decodesOk = false)
    (hgood : (pl (k + 1)).decodesOk = true)
    (hkN : k + 1 < N) :
    (runArrivals (N + 1) CompState.init (perm.map (fun i => (i, pl i)))).nextFrameToDraw
      = N
    ∧ k ∉ (runArrivals (N + 1) CompState.init (perm.map (fun i => (i, pl i)))).drawnLog
    ∧ (k + 1)
        ∈ (runArrivals (N + 1) CompState.init (perm.map (fun i => (i, pl i)))).drawnLog := by
  obtain ⟨hInv, hnext⟩ := runArrivals_perm pl N perm hperm
  obtain ⟨-, -, -, hlog, -, -⟩ := hInv
  refine ⟨hnext, ?_, ?_⟩
  · rw [hlog]
    simp [List.mem_filter, hbad]
  · rw [hlog, hnext, List.mem_filter]
    exact ⟨List.mem_range.mpr hkN, hgood⟩

theorem decode_failure_skips_frame_and_continues_witness :
    (10 : Nat) ∉ (runArrivals 13 CompState.init
        ([11, 10, 0, 1, 2, 3, 4, 5, 6, 7, 8, 9].map (fun i => (i, gapPayload i)))).drawnLog
    ∧ (11 : Nat) ∈ (runArrivals 13 CompState.init
        ([11, 10, 0, 1, 2, 3, 4, 5, 6, 7, 8, 9].map (fun i => (i, gapPayload i)))).drawnLog := by
  have h := decode_failure_skips_frame_and_continues 12 10 gapPayload
    [11, 10, 0, 1, 2, 3, 4, 5, 6, 7, 8, 9] (by decide) rfl rfl (by decide)
  exact ⟨h.2.1, h.2.2⟩

/-- C6: on the very first frame of a session the drawing-surface dimensions
are set to the dimensions of that decoded image (for any arrival permutation,
provided frame 0 decodes), and once the first frame has been consumed no
later submission or drain ever changes them. -/
theorem canvas_sized_once_on_first_frame (N : Nat) (pl : Nat → Payload)
    (perm : List Nat) (hperm : perm.Perm (List.range N)) (hN : 0 < N)
    (hok0 : (pl 0).decodesOk = true)
    (fuel : Nat) (t : CompState) (ht : 0 < t.nextFrameToDraw) (i : Nat) (p : Payload) :
    (runArrivals (N + 1) CompState.init (perm.map (fun i => (i, pl i)))).canvasSize
      = some ((pl 0).width, (pl 0).height)
    ∧ (submitFrame fuel t i p).canvasSize = t.canvasSize := by
  constructor
  · obtain ⟨hInv, hnext⟩ := runArrivals_perm pl N perm hperm
    obtain ⟨-, -, -, -, -, hcanv⟩ := hInv
    rw [hcanv, hnext]
    simp [hN, hok0]
  · rw [submitFrame]
    exact processFrameQueue_canvas_stable fuel _ ht

theorem canvas_sized_once_on_first_frame_witness :
    (runArrivals 2 CompState.init ([0].map (fun i => (i, okPayload i)))).canvasSize
      = some ((okPayload 0).width, (okPayload 0).height)
    ∧ (submitFrame 0 sampleMidComp 5 (okPayload 5)).canvasSize = sampleMidComp.canvasSize :=
  canvas_sized_once_on_first_frame 1 okPayload [0] (by decide) (by decide) rfl
    0 sampleMidComp (by decide) 5 (okPayload 5)

/-- C2: the Frame Buffer accepts a submitted frame in any arrival order and
stores it keyed by its sequence index (leaving all other entries alone);
draining at `nextExpectedIndex` returns and removes exactly the entry at
that index when present (and touches no other entry — no accepted frame is
dropped except the one consumed), and when absent returns `none` — the
normal waiting signal, not an error — leaving the buffer unchanged. -/
theorem frame_buffer_contract (q : FrameQueue) (i next : Nat) (p : Payload) :
    ((q.set i p).get i = some p ∧ ∀ j, j ≠ i → (q.set i p).get j = q.get j)
    ∧ (q.get next = some p →
        (drainReady q next).1 = some p
        ∧ (drainReady q next).2.get next = none
        ∧ ∀ j, j ≠ next → (drainReady q next).2.get j = q.get j)
    ∧ (q.get next = none → (drainReady q next).1 = none ∧ (drainReady q next).2 = q) := by
  refine ⟨⟨?_, ?_⟩, ?_, ?_⟩
  · simp [FrameQueue.set, FrameQueue.get]
  · intro j hj
    simp [FrameQueue.set, FrameQueue.get, hj]
  · intro h
    simp only [drainReady, h]
    refine ⟨trivial, ?_, ?_⟩
    · simp [FrameQueue.del, FrameQueue.get]
    · intro j hj
      simp [FrameQueue.del, FrameQueue.get, hj]
  · intro h
    simp only [drainReady, h]
    exact ⟨trivial, trivial⟩

theorem frame_buffer_contract_witness :
    (FrameQueue.empty.set 7 (okPayload 7)).get 7 = some (okPayload 7)
    ∧ (drainReady FrameQueue.empty 0).1 = none := by
  refine ⟨(frame_buffer_contract FrameQueue.empty 7 0 (okPayload 7)).1.1, ?_⟩
  exact ((frame_buffer_contract FrameQueue.empty 7 0 (okPayload 7)).2.2 rfl).1

/-- C4: for every frame index `f`, the scene index computed by the playback
threshold chain equals the number of boundary-table entries `b` with
`f ≥ b`; it is monotonically non-decreasing in `f`, is `0` at `f = 0`, and
takes the documented values at 95, 96, 383 and 384. -/
theorem sceneForFrame_matches_boundary_count :
    (∀ f, sceneForFrame f = boundaryTable.countP (fun b => b ≤ f))
    ∧ (∀ f g, f ≤ g → sceneForFrame f ≤ sceneForFrame g)
    ∧ sceneForFrame 0 = 0
    ∧ sceneForFrame 95 = 0 ∧ sceneForFrame 96 = 1
    ∧ sceneForFrame 383 = 3 ∧ sceneForFrame 384 = 4 := by
  refine ⟨?_, ?_, by decide, by decide, by decide, by decide, by decide⟩
  · intro f
    simp only [sceneForFrame, boundaryTable, List.countP_cons, List.countP_nil,
      decide_eq_true_eq]
    split_ifs <;> omega
  · intro f g h
    simp only [sceneForFrame]
    split_ifs <;> omega

theorem sceneForFrame_matches_boundary_count_witness :
    sceneForFrame 95 ≤ sceneForFrame 200 :=
  sceneForFrame_matches_boundary_count.2.1 95 200 (by decide)

/-- C5: activating the audio for scene `sc` twice in a row (from a state
where `sc` is an actual crossing and handle `sc` exists) emits exactly one
`play` call, on handle `sc`, and none on any other handle; the second
activation is a complete no-op, and in general activating the scene that is
already active does nothing — a clip is restarted only on an actual
crossing. -/
theorem activate_twice_plays_once (a : AudioState) (sc : Nat)
    (hcross : sc ≠ a.currentSceneRef) (hlt : sc < a.numHandles) :
    activate sc (activate sc a) = activate sc a
    ∧ ((activate sc (activate sc a)).events.drop a.events.length).count
        (AudioEvent.play sc) = 1
    ∧ (∀ j, j ≠ sc →
        ((activate sc (activate sc a)).events.drop a.events.length).count
          (AudioEvent.play j) = 0)
    ∧ (∀ (b : AudioState) (t : Nat), t = b.currentSceneRef → activate t b = b) := by
  have hnoop : ∀ (b : AudioState) (t : Nat), t = b.currentSceneRef → activate t b = b := by
    intro b t ht
    simp [activate, ht]
  have hcur : (activate sc a).currentSceneRef = sc := by
    simp [activate, hcross]
  have hid : activate sc (activate sc a) = activate sc a :=
    hnoop (activate sc a) sc hcur.symm
  have hev : (activate sc a).events
      = a.events ++ ((List.range a.numHandles).map AudioEvent.pause
          ++ [AudioEvent.play sc]) := by
    simp [activate, hcross, hlt, pauseRewindAll, List.append_assoc]
  have hpausecount : ∀ j, ((List.range a.numHandles).map AudioEvent.pause).count
      (AudioEvent.play j) = 0 := by
    intro j
    rw [List.count_eq_zero]
    simp
  refine ⟨hid, ?_, ?_, hnoop⟩
  · rw [hid, hev, List.drop_left, List.count_append, hpausecount]
    simp
  · intro j hj
    rw [hid, hev, List.drop_left, List.count_append, hpausecount]
    rw [List.count_eq_zero.mpr]
    simp [hj]

theorem activate_twice_plays_once_witness :
    ((activate 1 (activate 1 sampleAudio)).events.drop sampleAudio.events.length).count
      (AudioEvent.play 1) = 1 :=
  (activate_twice_plays_once sampleAudio 1 (by decide) (by decide)).2.1

lemma playFrameStep_advances (frames : List (Option Payload)) (s : PlayState)
    (h : s.frameIndex < frames.length) :
    (playFrameStep frames s).frameIndex = s.frameIndex + 1
    ∧ (playFrameStep frames s).intervalActive = s.intervalActive
    ∧ (playFrameStep frames s).isPlaying = s.isPlaying := by
  have hnle : ¬ (frames.length ≤ s.frameIndex) := by omega
  simp only [playFrameStep, if_neg hnle]
  rcases hget : frames.getD s.frameIndex none with _ | p <;>
    exact ⟨rfl, rfl, rfl⟩

lemma playback_reaches_end (frames : List (Option Payload)) :
    ∀ (m : Nat) (s : PlayState), s.intervalActive = true →
      s.frameIndex + m = frames.length →
      ((tick frames)^[m] s).intervalActive = true
      ∧ ((tick frames)^[m] s).isPlaying = s.isPlaying
      ∧ ((tick frames)^[m] s).frameIndex = frames.length := by
  intro m
  induction m with
  | zero =>
    intro s h1 h2
    simp only [Function.iterate_zero, id_eq]
    exact ⟨h1, trivial, by omega⟩
  | succ m ih =>
    intro s h1 h2
    rw [Function.iterate_succ_apply]
    have hadv := playFrameStep_advances frames s (by omega)
    have htick : tick frames s = playFrameStep frames s := by rw [tick, if_pos h1]
    rw [htick]
    obtain ⟨hidx, hint, hplay⟩ := hadv
    have hres := ih (playFrameStep frames s) (by rw [hint, h1]) (by omega)
    exact ⟨hres.1, by rw [hres.2.1, hplay], hres.2.2⟩

lemma playback_end_step (frames : List (Option Payload)) (s : PlayState)
    (hend : frames.length ≤ s.frameIndex) (hint : s.intervalActive = true) :
    tick frames s =
      { s with isPlaying := false
               wsStatus := "Playback complete"
               intervalActive := false
               audio := pauseAll s.audio } := by
  rw [tick, if_pos hint, playFrameStep, if_pos hend]

lemma playback_run_full (frames : List (Option Payload))
    (hfull : ∀ i, i < frames.length → frames.getD i none ≠ none) :
    ∀ (m : Nat) (s : PlayState), s.intervalActive = true → 0 < m →
      s.frameIndex + m = frames.length →
      ((tick frames)^[m] s).currentPlaybackFrame = frames.length - 1 := by
  intro m
  induction m with
  | zero => intro s _ h0 _; omega
  | succ m ih =>
    intro s h1 _ h2
    rw [Function.iterate_succ_apply]
    have hlt : s.frameIndex < frames.length := by omega
    have hp := hfull s.frameIndex hlt
    rcases hget : frames.getD s.frameIndex none with _ | p
    · exact absurd hget hp
    · have htick : tick frames s = playFrameStep frames s := by rw [tick, if_pos h1]
      have hnle : ¬ (frames.length ≤ s.frameIndex) := by omega
      have hstep : playFrameStep frames s =
          { s with canvasContent := some s.frameIndex
                   drawnLog := s.drawnLog ++ [s.frameIndex]
                   currentPlaybackFrame := s.frameIndex
                   audio := activate (sceneForFrame s.frameIndex) s.audio
                   frameIndex := s.frameIndex + 1 } := by
        rw [playFrameStep, if_neg hnle, hget]
      rw [htick, hstep]
      rcases Nat.eq_zero_or_pos m with hm0 | hmpos
      · subst hm0
        simp only [Function.iterate_zero, id_eq]
        omega
      · apply ih
        · exact h1
        · exact hmpos
        · dsimp only
          omega

/-- C7 (amended): during full playback, reaching the end of the archive
stops the fixed-rate timer, drops the playing flag (the session ends
Stopped and replayable), and pauses every audio handle; but the displayed
position is left at the last drawn frame — it is NOT reset to the first
frame of the archive. -/
theorem playback_end_behaviour (frames : List (Option Payload)) (audio : AudioState)
    (canvas0 : Option Nat) (hN : 0 < frames.length)
    (hfull : ∀ i, i < frames.length → frames.getD i none ≠ none) :
    (finalPlaybackState frames audio canvas0).intervalActive = false
    ∧ (finalPlaybackState frames audio canvas0).isPlaying = false
    ∧ (∀ j, (finalPlaybackState frames audio canvas0).audio.playing j = false)
    ∧ (finalPlaybackState frames audio canvas0).currentPlaybackFrame
        = frames.length - 1 := by
  have hrun := playback_reaches_end frames frames.length (playVideoInit audio canvas0)
    rfl (by exact (by omega : 0 + frames.length = frames.length))
  have hcPF := playback_run_full frames hfull frames.length (playVideoInit audio canvas0)
    rfl hN (by exact (by omega : 0 + frames.length = frames.length))
  rw [finalPlaybackState, Function.iterate_succ_apply']
  have hend := playback_end_step frames ((tick frames)^[frames.length]
      (playVideoInit audio canvas0)) (le_of_eq hrun.2.2.symm) hrun.1
  rw [hend]
  exact ⟨rfl, rfl, fun j => rfl, hcPF⟩

theorem playback_end_behaviour_witness :
    (finalPlaybackState sampleArchive2 sampleAudio none).intervalActive = false
    ∧ (finalPlaybackState sampleArchive2 sampleAudio none).currentPlaybackFrame
        = sampleArchive2.length - 1 := by
  have h := playback_end_behaviour sampleArchive2 sampleAudio none (by decide) (by decide)
  exact ⟨h.1, h.2.2.2⟩

/-- C7 counterexample: with a two-frame archive the completed run ends with
the timer stopped and the session replayable, but the displayed position at
frame index 1 — the last frame — not reset to the first frame (index 0) as
the claim states. -/
theorem playback_position_not_reset_at_end :
    (finalPlaybackState sampleArchive2 sampleAudio none).intervalActive = false
    ∧ (finalPlaybackState sampleArchive2 sampleAudio none).isPlaying = false
    ∧ (finalPlaybackState sampleArchive2 sampleAudio none).currentPlaybackFrame = 1
    ∧ (finalPlaybackState sampleArchive2 sampleAudio none).currentPlaybackFrame ≠ 0 := by
  refine ⟨?_, ?_, ?_, ?_⟩ <;> decide

/-- C8: stopping playback cancels the timer, pauses every audio handle,
leaves the last-drawn frame on the canvas (canvas content and draw log
untouched), and no further frame draws occur while stopped: any number of
subsequent timer ticks leaves the state exactly as `stopVideo` left it. -/
theorem stop_video_halts_playback (frames : List (Option Payload)) (s : PlayState)
    (n : Nat) :
    (stopVideo s).intervalActive = false
    ∧ (stopVideo s).isPlaying = false
    ∧ (∀ j, (stopVideo s).audio.playing j = false)
    ∧ (stopVideo s).canvasContent = s.canvasContent
    ∧ (stopVideo s).drawnLog = s.drawnLog
    ∧ ((tick frames)^[n] (stopVideo s)) = stopVideo s := by
  refine ⟨rfl, rfl, fun j => rfl, rfl, rfl, ?_⟩
  induction n with
  | zero => rfl
  | succ n ih =>
    rw [Function.iterate_succ_apply', ih]
    rw [tick, if_neg (show ¬ ((stopVideo s).intervalActive = true) from Bool.false_ne_true)]

/-- C10: during full playback, a missing archive entry at the cursor (for
example a frame skipped earlier on decode failure) advances the frame
counter and changes nothing else — no draw, the timer keeps running — and
playback over any (possibly gapped) archive still terminates, with the
timer stopped, once the counter reaches the archive length. -/
theorem missing_entry_skipped_without_stopping (frames : List (Option Payload))
    (s : PlayState) (h1 : s.frameIndex < frames.length)
    (h2 : frames.getD s.frameIndex none = none) :
    playFrameStep frames s = { s with frameIndex := s.frameIndex + 1 }
    ∧ (∀ (t : PlayState), t.intervalActive = true → t.frameIndex = 0 →
        ((tick frames)^[frames.length + 1] t).intervalActive = false
        ∧ ((tick frames)^[frames.length + 1] t).isPlaying = false) := by
  constructor
  · rw [playFrameStep, if_neg (by omega), h2]
  · intro t ht hidx
    have hrun := playback_reaches_end frames frames.length t ht (by omega)
    rw [Function.iterate_succ_apply']
    have hend := playback_end_step frames _ (le_of_eq hrun.2.2.symm) hrun.1
    rw [hend]
    exact ⟨rfl, rfl⟩

theorem missing_entry_skipped_without_stopping_witness :
    (playFrameStep sampleArchiveGap sampleMidPlay).frameIndex = 2
    ∧ ((tick sampleArchiveGap)^[4] (playVideoInit sampleAudio none)).intervalActive
        = false := by
  have h := missing_entry_skipped_without_stopping sampleArchiveGap sampleMidPlay
    (by decide) (by decide)
  refine ⟨?_, ?_⟩
  · rw [h.1]
    rfl
  · exact (h.2 (playVideoInit sampleAudio none) rfl rfl).1

end LiveCut

namespace LiveCut.Edit

/-- C9: for every chunk count `numChunks ≥ 1` the previous/next scene
navigation and the arrow-key handlers keep the selected chunk index within
`[0, numChunks)`; stepping right from the last chunk wraps to chunk 0 and
stepping left from chunk 0 wraps to the last chunk. -/
theorem nav_wraps_and_stays_in_range (n c : Int) (hn : 1 ≤ n) (hc0 : 0 ≤ c)
    (hcn : c < n) :
    (0 ≤ goLeft n c ∧ goLeft n c < n)
    ∧ (0 ≤ goRight n c ∧ goRight n c < n)
    ∧ goLeft n 0 = n - 1
    ∧ goRight n (n - 1) = 0
    ∧ arrowLeftHandler n c = goLeft n c
    ∧ arrowRightHandler n c = goRight n c := by
  have hn0 : n ≠ 0 := by omega
  have hL : goLeft n c = (c - 1 + n) % n := by
    rw [goLeft, Int.tmod_eq_emod (by omega) (by omega)]
  have hR : goRight n c = (c + 1) % n := by
    rw [goRight, Int.tmod_eq_emod (by omega) (by omega)]
  refine ⟨⟨?_, ?_⟩, ⟨?_, ?_⟩, ?_, ?_, rfl, rfl⟩
  · rw [hL]
    exact Int.emod_nonneg _ hn0
  · rw [hL]
    exact Int.emod_lt_of_pos _ (by omega)
  · rw [hR]
    exact Int.emod_nonneg _ hn0
  · rw [hR]
    exact Int.emod_lt_of_pos _ (by omega)
  · rw [goLeft, Int.tmod_eq_emod (by omega) (by omega),
      show (0 : Int) - 1 + n = n - 1 by ring]
    exact Int.emod_eq_of_lt (by omega) (by omega)
  · rw [goRight, show n - 1 + 1 = n by ring]
    exact Int.tmod_self

theorem nav_wraps_and_stays_in_range_witness :
    (0 ≤ goLeft 3 1 ∧ goLeft 3 1 < 3) ∧ goRight 3 (3 - 1) = 0 :=
  ⟨(nav_wraps_and_stays_in_range 3 1 (by decide) (by decide) (by decide)).1,
   (nav_wraps_and_stays_in_range 3 1 (by decide) (by decide) (by decide)).2.2.2.1⟩

end LiveCut.Edit
